import Mathlib

/-!
Shallow embedding of the MCP host-side integration layer
(stdio transport, JSON-RPC protocol engine, server manager,
manifest cache, permission guard, audit log) together with
theorems checking the specification claims against the code.

JavaScript records (`Record<string, T>`) are modelled as
insertion-ordered association lists, JSON values by the
inductive `JValue`, and JavaScript `Array.prototype.slice`
with a negative start index by `jsSliceNeg` (including the
quirk that `slice(-0)` is `slice(0)`, i.e. the whole array).
-/

namespace MCPSpec

/-- JSON values, the model of JavaScript `unknown` data that has
passed through `JSON.parse` / `JSON.stringify`. -/
inductive JValue where
  | jnull
  | jbool (b : Bool)
  | jnum (n : Int)
  | jstr (s : String)
  | jarr (elems : List JValue)
  | jobj (fields : List (String × JValue))

/-- JavaScript `arr.slice(-n)` for a non-negative JavaScript number `-n`.
For `n ≥ 1` this keeps the last `n` elements (all of them when `n`
exceeds the length).  For `n = 0` the argument `-0` collapses to `+0`
and `slice(0)` returns the whole array. -/
def jsSliceNeg (l : List α) (n : Nat) : List α :=
  if n = 0 then l else l.drop (l.length - n)

/-- JavaScript `hay.includes(needle)`: substring containment. -/
def strIncludes (hay needle : String) : Bool :=
  hay.data.tails.any (fun t => needle.data.isPrefixOf t)

/-- JavaScript `s.toLowerCase()`, modelled characterwise (ASCII case
mapping). -/
def jsToLower (s : String) : String :=
  String.mk (s.data.map Char.toLower)

-- ---------------------------------------------------------------------------
-- Audit Logger (src/mcp/security.ts)
-- ---------------------------------------------------------------------------

/-- `AuditEntry.action` values. -/
inductive AuditAction where
  | invoke
  | deny
  | error
deriving DecidableEq, Repr

/-- `AuditEntry.result` values. -/
inductive AuditResult where
  | success
  | failure
deriving DecidableEq, Repr

/-- An audit record (`AuditEntry` in src/mcp/security.ts).  The argument
mapping is an insertion-ordered association list of JSON values. -/
structure AuditEntry where
  timestamp : String
  server : String
  tool : String
  action : AuditAction
  arguments : Option (List (String × JValue)) := none
  result : Option AuditResult := none
  reason : Option String := none
  durationMs : Option Nat := none

namespace AuditLog

/-- `AuditLog.record`: push the entry, then truncate with
`entries.slice(-maxEntries)` whenever the length exceeds `maxEntries`. -/
def record (maxEntries : Nat) (entries : List AuditEntry) (e : AuditEntry) :
    List AuditEntry :=
  let es := entries ++ [e]
  if maxEntries < es.length then jsSliceNeg es maxEntries else es

/-- Iterated `record`, starting from the empty log of a fresh `AuditLog`. -/
def recordAll (maxEntries : Nat) (es : List AuditEntry) : List AuditEntry :=
  es.foldl (record maxEntries) []

/-- `AuditLog.recent(count)`: `entries.slice(-count)`, default count 50. -/
def recent (entries : List AuditEntry) (count : Nat := 50) : List AuditEntry :=
  jsSliceNeg entries count

/-- The `SENSITIVE_KEYS` constant of `AuditLog.redactSensitive`, verbatim
from the source (note the camel-cased fifth element). -/
def SENSITIVE_KEYS : List String :=
  ["password", "secret", "token", "api_key", "apiKey", "authorization"]

/-- The sensitivity test of `AuditLog.redactSensitive`:
`SENSITIVE_KEYS.some((s) => key.toLowerCase().includes(s))`. -/
def isSensitiveKey (key : String) : Bool :=
  SENSITIVE_KEYS.any (fun s => strIncludes (jsToLower key) s)

/-- `AuditLog.redactSensitive` on a present argument mapping: rebuild the
record, replacing the value of each sensitive key by `"[REDACTED]"`. -/
def redactSensitive (args : List (String × JValue)) : List (String × JValue) :=
  args.map (fun kv => if isSensitiveKey kv.1 then (kv.1, JValue.jstr "[REDACTED]") else kv)

/-- `AuditLog.logInvocation`: the entry recorded for a tool invocation.
The wall-clock ISO timestamp is passed in explicitly. -/
def invocationEntry (now server tool : String)
    (args : Option (List (String × JValue)))
    (result : Option AuditResult) (durationMs : Option Nat) : AuditEntry :=
  { timestamp := now
    server := server
    tool := tool
    action := AuditAction.invoke
    arguments := args.map redactSensitive
    result := result
    durationMs := durationMs }

end AuditLog

-- ---------------------------------------------------------------------------
-- Permission Guard (src/mcp/security.ts)
-- ---------------------------------------------------------------------------

/-- The `PermissionScope` union type. -/
inductive PermissionScope where
  | read
  | write
  | execute
  | network
deriving DecidableEq, Repr

/-- The string each scope denotes (scopes are string literals in the source). -/
def PermissionScope.toStr : PermissionScope → String
  | .read => "read"
  | .write => "write"
  | .execute => "execute"
  | .network => "network"

/-- A `ToolPermission` rule. -/
structure ToolPermission where
  tool : String
  allow : Bool
  scopes : Option (List PermissionScope) := none
deriving DecidableEq, Repr

/-- A `PermissionCheckResult`. -/
structure PermissionCheckResult where
  allowed : Bool
  reason : Option String := none
deriving DecidableEq, Repr

/-- Atoms of the regular expression built by `matchGlob`:
`pattern.replace(/[.+^$\x7b\x7d()|[\]\\]/g, "\\$&").replace(/\*/g, ".*")`
wrapped in `^...$`.  Every character of the pattern other than `*` and `?`
becomes a literal atom (the listed metacharacters via an inserted backslash,
the rest verbatim); `*` becomes the atom-with-quantifier `.*`; `?`, which the
escaping regex does NOT cover, stays a bare quantifier that makes the
preceding atom optional. -/
inductive GTok where
  | lit (c : Char)
  | star
  | opt (c : Char)
deriving DecidableEq, Repr

/-- Compilation of a glob pattern into regex atoms, mirroring the string
rewriting performed by `matchGlob` followed by JavaScript `RegExp` parsing.
`none` models a `SyntaxError` from the `RegExp` constructor ("nothing to
repeat"): a `?` with no atom before it, or a third quantifier character in a
row after an atom.  A `?` directly after an atom makes that atom optional; a
second `?` only turns the quantifier lazy, which does not change the matched
language, so it is dropped here. -/
def globTokens : List Char → Option (List GTok)
  | [] => some []
  | '*' :: '?' :: '?' :: _ => none
  | '*' :: '?' :: rest => (globTokens rest).map (fun ts => GTok.star :: ts)
  | '*' :: rest => (globTokens rest).map (fun ts => GTok.star :: ts)
  | '?' :: _ => none
  | _ :: '?' :: '?' :: '?' :: _ => none
  | c :: '?' :: '?' :: rest => (globTokens rest).map (fun ts => GTok.opt c :: ts)
  | c :: '?' :: rest => (globTokens rest).map (fun ts => GTok.opt c :: ts)
  | c :: rest => (globTokens rest).map (fun ts => GTok.lit c :: ts)

/-- JavaScript line terminators, which `.` (and hence the `.*` produced
for `*`) does not match when the regex has no `s` flag. -/
def isLineTerminator (c : Char) : Bool :=
  c = '\n' || c = '\r' || c = Char.ofNat 0x2028 || c = Char.ofNat 0x2029

/-- Anchored matching of the compiled atoms against a string, i.e.
`new RegExp("^" + ... + "$").test(value)`. -/
def rmatch : List GTok → List Char → Bool
  | [], [] => true
  | [], _ :: _ => false
  | GTok.lit _ :: _, [] => false
  | GTok.lit c :: ts, x :: xs => c == x && rmatch ts xs
  | GTok.star :: ts, [] => rmatch ts []
  | GTok.star :: ts, x :: xs =>
      rmatch ts (x :: xs) || (!isLineTerminator x && rmatch (GTok.star :: ts) xs)
  | GTok.opt _ :: ts, [] => rmatch ts []
  | GTok.opt c :: ts, x :: xs =>
      rmatch ts (x :: xs) || (c == x && rmatch ts xs)
termination_by ts xs => (xs.length, ts.length)

/-- `matchGlob(pattern, value)`.  `none` models the `RegExp` constructor
throwing on the built source string; `some b` is `regex.test(value)`. -/
def matchGlob (pattern value : String) : Option Bool :=
  (globTokens pattern.data).map (fun ts => rmatch ts value.data)

/-- The glob semantics the specification claims for `matchGlob`: `*` matches
any run of characters and every other character of the pattern - `?`
included - matches only itself.  This definition follows the claim text and
is compared with `matchGlob` (which embeds the source). -/
def globMatchSpec : List Char → List Char → Bool
  | [], [] => true
  | [], _ :: _ => false
  | '*' :: ps, [] => globMatchSpec ps []
  | '*' :: ps, x :: vs =>
      globMatchSpec ps (x :: vs) || globMatchSpec ('*' :: ps) vs
  | _ :: _, [] => false
  | c :: ps, x :: vs => c == x && globMatchSpec ps vs
termination_by ps vs => (vs.length, ps.length)

/-- String version of `globMatchSpec`. -/
def matchGlobSpec (pattern value : String) : Bool :=
  globMatchSpec pattern.data value.data

namespace PermissionGuard

/-- The glob bucket of `findMatchingRule`:
`rules.filter((r) => r.tool.includes("*")).find((r) => matchGlob(r.tool, toolName))`.
A `RegExp` constructor throw while testing a rule propagates (`Except.error`). -/
def findGlobRule : List ToolPermission → String → Except Unit (Option ToolPermission)
  | [], _ => Except.ok none
  | r :: rs, toolName =>
    match matchGlob r.tool toolName with
    | none => Except.error ()
    | some true => Except.ok (some r)
    | some false => findGlobRule rs toolName

/-- `findMatchingRule`: exact match first, then glob rules, then the
catch-all rule whose pattern is exactly `"*"`. -/
def findMatchingRule (rules : List ToolPermission) (toolName : String) :
    Except Unit (Option ToolPermission) :=
  match rules.find? (fun r => r.tool == toolName) with
  | some r => Except.ok (some r)
  | none =>
    match findGlobRule (rules.filter (fun r => strIncludes r.tool "*")) toolName with
    | Except.error e => Except.error e
    | Except.ok (some r) => Except.ok (some r)
    | Except.ok none => Except.ok (rules.find? (fun r => r.tool == "*"))

/-- `checkToolPermission(toolName, requiredScopes)`. -/
def checkToolPermission (rules : List ToolPermission) (toolName : String)
    (requiredScopes : Option (List PermissionScope)) :
    Except Unit PermissionCheckResult :=
  if rules.isEmpty then Except.ok { allowed := true }
  else
    match findMatchingRule rules toolName with
    | Except.error e => Except.error e
    | Except.ok none =>
      Except.ok { allowed := false
                  reason := some ("No permission rule matches tool \"" ++ toolName ++ "\"") }
    | Except.ok (some rule) =>
      if !rule.allow then
        Except.ok { allowed := false
                    reason := some ("Tool \"" ++ toolName ++ "\" is explicitly denied") }
      else
        match requiredScopes, rule.scopes with
        | some req, some ruleScopes =>
          if req.length > 0 then
            let missing := req.filter (fun s => !ruleScopes.contains s)
            if missing.length > 0 then
              Except.ok { allowed := false
                          reason := some ("Tool \"" ++ toolName ++ "\" missing scopes: "
                            ++ String.intercalate ", " (missing.map PermissionScope.toStr)) }
            else Except.ok { allowed := true }
          else Except.ok { allowed := true }
        | _, _ => Except.ok { allowed := true }

end PermissionGuard

-- ---------------------------------------------------------------------------
-- Manifest Cache (src/mcp/manifest.ts)
-- ---------------------------------------------------------------------------

/-- The `TransportType` union. -/
inductive TransportType where
  | stdio
  | http
deriving DecidableEq, Repr

/-- A `ServerConfig`. -/
structure ServerConfig where
  name : String
  command : String
  args : Option (List String) := none
  env : Option (List (String × String)) := none
  transport : TransportType := TransportType.stdio
  autoStart : Option Bool := none
  permissions : Option (List ToolPermission) := none
deriving DecidableEq, Repr

/-- A `ToolDefinition`; the JSON-schema payload is an opaque JSON value. -/
structure ToolDefinition where
  name : String
  description : Option String := none
  inputSchema : JValue := JValue.jobj []

/-- A `ServerManifestEntry`; capability/resource/prompt payloads are opaque
JSON values and `lastDiscovered` is an opaque timestamp string. -/
structure ServerManifestEntry where
  config : ServerConfig
  capabilities : Option JValue := none
  tools : Option (List ToolDefinition) := none
  resources : Option JValue := none
  prompts : Option JValue := none
  lastDiscovered : Option String := none

/-- JavaScript property read `m[k]` on a string-keyed record modelled as an
insertion-ordered association list. -/
def jsGet (m : List (String × α)) (k : String) : Option α :=
  (m.find? (fun p => p.1 == k)).map (fun p => p.2)

/-- The `MANIFEST_VERSION` constant. -/
def MANIFEST_VERSION : String := "1.0"

/-- The fresh empty manifest `{version: MANIFEST_VERSION, servers: {}}`
installed by the `ManifestManager` constructor and by the catch branch of
`load`, as a JSON value. -/
def emptyManifestJson : JValue :=
  JValue.jobj [("version", JValue.jstr MANIFEST_VERSION), ("servers", JValue.jobj [])]

namespace ManifestManager

/-- `ManifestManager.load`.  The file system is abstracted by `file`:
`none` means `fs.existsSync` is false; `some none` means reading or
`JSON.parse` throws (the catch branch); `some (some v)` means the file
contents parse to the JSON value `v`, which the source casts to
`GolemManifest` without any validation.  `current` is the manifest held
before the call (the constructor installs `emptyManifestJson`). -/
def load (file : Option (Option JValue)) (current : JValue) : JValue :=
  match file with
  | none => current
  | some none => emptyManifestJson
  | some (some v) => v

/-- First split of a character list at a separator: `none` mirrors
`indexOf` returning `-1`; `some (before, after)` mirrors
`slice(0, dotIndex)` and `slice(dotIndex + 1)`. -/
def splitFirst (sep : Char) : List Char → Option (List Char × List Char)
  | [] => none
  | x :: xs =>
    if x = sep then some ([], xs)
    else (splitFirst sep xs).map (fun p => (x :: p.1, p.2))

/-- The unqualified-name loop of `findTool`: scan servers in insertion
order and return the first cached tool whose name equals the query. -/
def scanTool : List (String × ServerManifestEntry) → String →
    Option (String × ToolDefinition)
  | [], _ => none
  | (name, entry) :: rest, q =>
    match entry.tools.bind (fun ts => ts.find? (fun t => t.name == q)) with
    | some t => some (name, t)
    | none => scanTool rest q

/-- `ManifestManager.findTool(qualifiedName)` over the typed in-memory
`servers` record. -/
def findTool (servers : List (String × ServerManifestEntry))
    (qualifiedName : String) : Option (String × ToolDefinition) :=
  match splitFirst '.' qualifiedName.data with
  | none => scanTool servers qualifiedName
  | some (srv, tool) =>
    match jsGet servers (String.mk srv) with
    | none => none
    | some entry =>
      match entry.tools with
      | none => none
      | some ts =>
        (ts.find? (fun t => t.name == String.mk tool)).map
          (fun t => (String.mk srv, t))

/-- The behaviour the specification claims for `findTool`, written from the
claim text: a query with a dot is split at the first `.` into server and
tool name and looked up in that server's cached tools; a dot-free query
returns the head of the insertion-ordered list of matching cached tools. -/
def findToolSpec (servers : List (String × ServerManifestEntry))
    (q : String) : Option (String × ToolDefinition) :=
  if '.' ∈ q.data then
    let srv := String.mk (q.data.takeWhile (fun c => c ≠ '.'))
    let tl := String.mk ((q.data.dropWhile (fun c => c ≠ '.')).tail)
    (jsGet servers srv).bind fun entry =>
      entry.tools.bind fun ts =>
        (ts.find? (fun t => t.name == tl)).map (fun t => (srv, t))
  else
    (servers.filterMap (fun p =>
      (p.2.tools.bind (fun ts => ts.find? (fun t => t.name == q))).map
        (fun t => (p.1, t)))).head?

end ManifestManager

-- ---------------------------------------------------------------------------
-- Stdio Transport inbound framing (src/mcp/transport.ts, handleData)
-- ---------------------------------------------------------------------------

/-- The whitespace characters trimmed by JavaScript `String.prototype.trim`
(the common set: ASCII whitespace, no-break space, BOM, line separators). -/
def jsIsWhitespace (c : Char) : Bool :=
  c = ' ' || c = '\t' || c = '\n' || c = '\r' ||
  c = Char.ofNat 0x0b || c = Char.ofNat 0x0c ||
  c = Char.ofNat 0xa0 || c = Char.ofNat 0xfeff ||
  c = Char.ofNat 0x2028 || c = Char.ofNat 0x2029

/-- JavaScript `s.trim()`. -/
def jsTrim (s : List Char) : List Char :=
  ((s.dropWhile jsIsWhitespace).reverse.dropWhile jsIsWhitespace).reverse

/-- Events emitted by `handleData`: parsed `message` events and parse-error
`error` events carrying `trimmed.slice(0, 200)`.  `handleData` emits no
`close` event on any path. -/
inductive TransportEvent where
  | message (v : JValue)
  | errorEv (excerpt : List Char)

namespace StdioTransport

/-- `buffer.split("\n")` followed by `buffer = lines.pop() || ""`: the
complete lines and the trailing partial line kept in the buffer. -/
def extractLines : List Char → List (List Char) × List Char
  | [] => ([], [])
  | c :: rest =>
    let p := extractLines rest
    if c = '\n' then ([] :: p.1, p.2)
    else
      match p.1 with
      | [] => ([], c :: p.2)
      | l :: ls => ((c :: l) :: ls, p.2)

/-- The per-line loop of `handleData`: skip lines that are empty after
trimming, parse the trimmed line (the `JSON.parse` builtin is the abstract
parameter `parse`), emit a `message` event on success and an `error` event
carrying the truncated excerpt on failure. -/
def lineEvents (parse : List Char → Option JValue) (lines : List (List Char)) :
    List TransportEvent :=
  lines.filterMap (fun line =>
    let trimmed := jsTrim line
    if trimmed.isEmpty then none
    else
      match parse trimmed with
      | some v => some (TransportEvent.message v)
      | none => some (TransportEvent.errorEv (trimmed.take 200)))

/-- `handleData(data)` on a transport whose buffer holds `buf`: append the
chunk, split off the complete lines, keep the trailing partial line, and
emit the per-line events. -/
def handleData (parse : List Char → Option JValue) (buf data : List Char) :
    List TransportEvent × List Char :=
  let p := extractLines (buf ++ data)
  (lineEvents parse p.1, p.2)

/-- Deliver a sequence of stdout chunks to `handleData`, collecting every
emitted event and the final buffer. -/
def processChunks (parse : List Char → Option JValue) (buf : List Char) :
    List (List Char) → List TransportEvent × List Char
  | [] => ([], buf)
  | d :: ds =>
    let r1 := handleData parse buf d
    let r2 := processChunks parse r1.2 ds
    (r1.1 ++ r2.1, r2.2)

/-- The per-line behaviour the specification claims, written from the claim
text: one event per complete NON-EMPTY line, each parsed as JSON (the
builtin ignores surrounding whitespace, so parsing the trimmed line), with
parse failures becoming error events. -/
def lineEventsSpec (parse : List Char → Option JValue)
    (lines : List (List Char)) : List TransportEvent :=
  lines.filterMap (fun line =>
    if line.isEmpty then none
    else
      match parse (jsTrim line) with
      | some v => some (TransportEvent.message v)
      | none => some (TransportEvent.errorEv ((jsTrim line).take 200)))

end StdioTransport

-- ---------------------------------------------------------------------------
-- Protocol Engine (protocol.ts: MCPProtocol)
-- ---------------------------------------------------------------------------

/-- One settlement call on a request's promise: `resolve(response.result)`
or `reject(new Error(msg))` / `reject(new MCPError(...))` (identified by the
error message). -/
inductive Settlement where
  | resolvedWith (v : JValue)
  | rejectedWith (msg : String)

/-- Engine state: the monotonic id counter, the pending table (id to the
request's `method`), the ids whose `setTimeout` timer is still armed (not
yet fired and not cleared by `clearTimeout`), and the settlement calls made
so far, in order.  A promise settles at most once, which `settleOnce`
enforces when a settlement call is recorded. -/
structure ProtoState where
  nextId : Nat := 1
  pending : List (Nat × String) := []
  timers : List (Nat × String) := []
  settled : List (Nat × Settlement) := []

/-- Association-list lookup by numeric id. -/
def lookupId (m : List (Nat × α)) (id : Nat) : Option α :=
  (m.find? (fun p => p.1 == id)).map (fun p => p.2)

/-- Remove the entry of an id (`Map.delete` / `clearTimeout`). -/
def eraseId (m : List (Nat × α)) (id : Nat) : List (Nat × α) :=
  m.filter (fun p => p.1 != id)

/-- Record a settlement call: JavaScript promises ignore every
resolve/reject after the first, so a second call for the same id is a
no-op. -/
def settleOnce (log : List (Nat × Settlement)) (id : Nat) (s : Settlement) :
    List (Nat × Settlement) :=
  if log.any (fun p => p.1 == id) then log else log ++ [(id, s)]

/-- The timeout rejection message:
`Request (method) (id=(id)) timed out after (timeout)ms`. -/
def timeoutMessage (method : String) (id : Nat) (timeoutMs : Nat) : String :=
  "Request " ++ method ++ " (id=" ++ toString id ++ ") timed out after "
    ++ toString timeoutMs ++ "ms"

namespace MCPProtocol

/-- `request(method, params)` up to its first suspension: allocate the id,
arm the timer, register the pending entry. -/
def mkRequest (s : ProtoState) (method : String) : ProtoState × Nat :=
  let id := s.nextId
  ({ s with
      nextId := id + 1
      pending := s.pending ++ [(id, method)]
      timers := s.timers ++ [(id, method)] }, id)

/-- The events the engine reacts to after requests are in flight. -/
inductive ProtoEvent where
  | newRequest (method : String)
  | timerFire (id : Nat)
  | recvResponse (id : Nat) (error : Option String) (result : JValue)
  | recvNotification (method : String)
  | sendFail (id : Nat) (msg : String)
  | transportClose (code : Int)

/-- One engine step.  `timerFire` is the `setTimeout` callback (it deletes
the pending entry, then rejects with the timeout error; a cleared or
already-fired timer cannot fire, hence the guard on `timers`).
`recvResponse` is `handleMessage` on a response: an id found in `pending`
is removed, its timer cleared, and the caller resolved or rejected; an
unknown id is silently dropped.  `sendFail` is the `catch` on
`transport.send`.  `transportClose` is `handleClose`, rejecting every
pending request. -/
def step (timeoutMs : Nat) (s : ProtoState) : ProtoEvent → ProtoState
  | ProtoEvent.newRequest m => (mkRequest s m).1
  | ProtoEvent.timerFire id =>
    match lookupId s.timers id with
    | none => s
    | some method =>
      { s with
          timers := eraseId s.timers id
          pending := eraseId s.pending id
          settled := settleOnce s.settled id
            (Settlement.rejectedWith (timeoutMessage method id timeoutMs)) }
  | ProtoEvent.recvResponse id err res =>
    match lookupId s.pending id with
    | none => s
    | some _ =>
      { s with
          pending := eraseId s.pending id
          timers := eraseId s.timers id
          settled := settleOnce s.settled id
            (match err with
             | some msg => Settlement.rejectedWith msg
             | none => Settlement.resolvedWith res) }
  | ProtoEvent.recvNotification _ => s
  | ProtoEvent.sendFail id msg =>
    { s with
        pending := eraseId s.pending id
        timers := eraseId s.timers id
        settled := settleOnce s.settled id (Settlement.rejectedWith msg) }
  | ProtoEvent.transportClose code =>
    { s with
        pending := []
        timers := []
        settled := s.pending.foldl
          (fun acc p => settleOnce acc p.1
            (Settlement.rejectedWith ("Transport closed with code " ++ toString code)))
          s.settled }

/-- Run a sequence of events. -/
def run (timeoutMs : Nat) (s : ProtoState) (evs : List ProtoEvent) : ProtoState :=
  evs.foldl (step timeoutMs) s

end MCPProtocol

-- ---------------------------------------------------------------------------
-- Server Manager (server-manager.ts)
-- ---------------------------------------------------------------------------

/-- The `ServerStatus` union. -/
inductive ServerStatus where
  | stopped
  | starting
  | running
  | error
deriving DecidableEq, Repr

/-- A `ServerState` snapshot.  Capabilities are opaque JSON, `serverInfo`
is a name/version pair, `startedAt` an opaque timestamp. -/
structure ServerState where
  name : String
  status : ServerStatus
  pid : Option Nat := none
  capabilities : Option JValue := none
  serverInfo : Option (String × String) := none
  toolCount : Option Nat := none
  startedAt : Option Nat := none
  error : Option String := none

/-- A `ManagedServer` map entry; the `MCPClient` object is identified by
the number the manager's client counter assigned at construction. -/
structure ManagedServer where
  config : ServerConfig
  clientId : Nat
  state : ServerState

/-- Manager state: the insertion-ordered `servers` map, every `stateChange`
event emitted so far (each carries a defensive copy of the state at emit
time), the client ids on which `disconnect` was called, and the counter
used to identify freshly constructed clients. -/
structure MgrState where
  servers : List (String × ManagedServer) := []
  events : List (String × ServerState) := []
  disconnects : List Nat := []
  nextClient : Nat := 0

/-- `Map.set`: replace in place when the key exists, append otherwise. -/
def jsSet (m : List (String × α)) (k : String) (v : α) : List (String × α) :=
  if m.any (fun p => p.1 == k) then
    m.map (fun p => if p.1 == k then (k, v) else p)
  else m ++ [(k, v)]

/-- `Map.delete`. -/
def jsDelete (m : List (String × α)) (k : String) : List (String × α) :=
  m.filter (fun p => p.1 != k)

/-- What `client.connect` (spawn + handshake) and the subsequent `listTools`
probe did, abstracting the outside world: on success it yields the
discovered capabilities and server info, the connection timestamp and the
tool count (`0` when the eager `listTools` threw). -/
inductive ConnectResult where
  | failure (msg : String)
  | success (caps : Option JValue) (info : Option (String × String))
      (time : Nat) (toolCount : Nat)

/-- How `start` returned. -/
inductive StartOutcome where
  | ok (st : ServerState)
  | errAlreadyRunning
  | errConnect (msg : String)

/-- The error message thrown for a running duplicate:
`Server "(name)" is already running`. -/
def alreadyRunningMsg (name : String) : String :=
  "Server \"" ++ name ++ "\" is already running"

namespace ServerManager

/-- `stopInternal(name)`: disconnect the client best-effort, reset the
state fields to a stopped snapshot, delete the map entry, then emit the
state change. -/
def stopInternal (s : MgrState) (name : String) : MgrState :=
  match jsGet s.servers name with
  | none => s
  | some managed =>
    let st : ServerState := { name := managed.state.name, status := ServerStatus.stopped }
    { s with
        servers := jsDelete s.servers name
        disconnects := s.disconnects ++ [managed.clientId]
        events := s.events ++ [(name, st)] }

/-- `start(config)` with the connect outcome supplied by `conn`.  Mirrors
the source: duplicate-running check, stale-entry cleanup, `starting`
registration and event, then either the running update or the error path
(status `error`, entry deleted, error event, re-throw). -/
def start (s : MgrState) (config : ServerConfig) (conn : ConnectResult) :
    MgrState × StartOutcome :=
  match jsGet s.servers config.name with
  | some existing =>
    if existing.state.status = ServerStatus.running then
      (s, StartOutcome.errAlreadyRunning)
    else
      startFresh (stopInternal s config.name) config conn
  | none => startFresh s config conn
where
  /-- The body after the duplicate check: fresh client, `starting` state,
  connect, then the success or failure path. -/
  startFresh (s : MgrState) (config : ServerConfig) (conn : ConnectResult) :
      MgrState × StartOutcome :=
    let clientId := s.nextClient
    let st0 : ServerState := { name := config.name, status := ServerStatus.starting }
    let s1 : MgrState :=
      { s with
          nextClient := clientId + 1
          servers := jsSet s.servers config.name
            { config := config, clientId := clientId, state := st0 }
          events := s.events ++ [(config.name, st0)] }
    match conn with
    | ConnectResult.failure msg =>
      let stE : ServerState := { st0 with status := ServerStatus.error, error := some msg }
      ({ s1 with
          servers := jsDelete s1.servers config.name
          events := s1.events ++ [(config.name, stE)] },
       StartOutcome.errConnect msg)
    | ConnectResult.success caps info time toolCount =>
      let stR : ServerState :=
        { st0 with
            status := ServerStatus.running
            capabilities := caps
            serverInfo := info
            startedAt := some time
            toolCount := some toolCount }
      ({ s1 with
          servers := jsSet s1.servers config.name
            { config := config, clientId := clientId, state := stR }
          events := s1.events ++ [(config.name, stR)] },
       StartOutcome.ok stR)

/-- `list()`: state copies in map order. -/
def list (s : MgrState) : List ServerState :=
  s.servers.map (fun p => p.2.state)

/-- `get(name)`. -/
def get (s : MgrState) (name : String) : Option ServerState :=
  (jsGet s.servers name).map (fun m => m.state)

/-- `getClient(name)`: the live client only while the server is running. -/
def getClient (s : MgrState) (name : String) : Option Nat :=
  match jsGet s.servers name with
  | some managed =>
    if managed.state.status = ServerStatus.running then some managed.clientId
    else none
  | none => none

/-- `startAll(configs)`: `autoStart === false` registers a fresh stopped
slot (fresh client, no events, unconditional `Map.set`) without starting;
otherwise `start` runs and a thrown error is recorded in the results map
instead of aborting the loop. -/
def startAllAux (results : List (String × ServerState)) (s : MgrState) :
    List (ServerConfig × ConnectResult) → MgrState × List (String × ServerState)
  | [] => (s, results)
  | (config, conn) :: rest =>
    if config.autoStart = some false then
      let st : ServerState := { name := config.name, status := ServerStatus.stopped }
      let clientId := s.nextClient
      let s1 : MgrState :=
        { s with
            nextClient := clientId + 1
            servers := jsSet s.servers config.name
              { config := config, clientId := clientId, state := st } }
      startAllAux (jsSet results config.name st) s1 rest
    else
      match start s config conn with
      | (s1, StartOutcome.ok st) =>
        startAllAux (jsSet results config.name st) s1 rest
      | (s1, StartOutcome.errAlreadyRunning) =>
        let stE : ServerState :=
          { name := config.name, status := ServerStatus.error
            error := some (alreadyRunningMsg config.name) }
        startAllAux (jsSet results config.name stE) s1 rest
      | (s1, StartOutcome.errConnect msg) =>
        let stE : ServerState :=
          { name := config.name, status := ServerStatus.error, error := some msg }
        startAllAux (jsSet results config.name stE) s1 rest

/-- `startAll(configs)` from an empty results map. -/
def startAll (s : MgrState) (cfgs : List (ServerConfig × ConnectResult)) :
    MgrState × List (String × ServerState) :=
  startAllAux [] s cfgs

end ServerManager

-- ---------------------------------------------------------------------------
-- Helper definitions used by the theorems
-- ---------------------------------------------------------------------------

/-- The last `n` elements of a list (all of them when `n` exceeds the
length). -/
def lastN (l : List α) (n : Nat) : List α :=
  l.drop (l.length - n)

/-- A concrete audit entry used in closed counterexamples. -/
def sampleEntry : AuditEntry :=
  { timestamp := "1970-01-01T00:00:00.000Z"
    server := "s1"
    tool := "echo"
    action := AuditAction.invoke }

/-- A fresh protocol engine with one request in flight, used as the
concrete input of the timeout witness. -/
def protoWitnessState : ProtoState :=
  (MCPProtocol.mkRequest {} "slow/method").1

/-- A concrete server config. -/
def sampleConfig : ServerConfig :=
  { name := "srv", command := "echo" }

/-- The same server, registered with `autoStart: false`. -/
def sampleConfigOff : ServerConfig :=
  { name := "srv", command := "echo", autoStart := some false }

/-- A manager on which `start` succeeded for `sampleConfig`, so `"srv"`
is running. -/
def runningMgrState : MgrState :=
  (ServerManager.start {} sampleConfig (ConnectResult.success none none 0 0)).1

end MCPSpec

-- ===========================================================================
-- Theorems
-- ===========================================================================

namespace MCPSpec

-- ---------------------------------------------------------------------------
-- C1: argument redaction in audit logging
-- ---------------------------------------------------------------------------

/-- C1: the claim states that every top-level key whose lowercase form
contains "apikey" is recorded as "[REDACTED]".  The code checks
`key.toLowerCase().includes(s)` against the `SENSITIVE_KEYS` constant whose
fifth element is the camel-cased string `"apiKey"`, which a lowercased key
can never contain; so the key `"apiKey"` (lowercase form `"apikey"`,
containing `"apikey"`) is recorded with its original value.  This theorem
evaluates the code at that failing input. -/
theorem c1_apikey_escapes_redaction :
    strIncludes (jsToLower "apiKey") "apikey" = true ∧
    (AuditLog.invocationEntry "2026-01-01T00:00:00.000Z" "s" "t"
        (some [("apiKey", JValue.jstr "xyz")]) (some AuditResult.success)
        none).arguments
      = some [("apiKey", JValue.jstr "xyz")] :=
  ⟨by decide, rfl⟩

-- ---------------------------------------------------------------------------
-- C3: manifest load on missing / malformed / non-manifest files
-- ---------------------------------------------------------------------------

/-- C3 counterexample: a file whose contents are valid JSON but not a
manifest object (here the JSON value `null`) is NOT replaced by the fresh
empty manifest: `JSON.parse` succeeds, the unvalidated cast stores `null`
and `load` returns it. -/
theorem c3_load_counterexample :
    ManifestManager.load (some (some JValue.jnull)) emptyManifestJson
        = JValue.jnull ∧
    JValue.jnull ≠ emptyManifestJson :=
  ⟨rfl, fun h => JValue.noConfusion h⟩

/-- C3 amended: on a fresh manager, `load` keeps the constructor-installed
manifest when the file is missing, installs the fresh empty manifest when
reading or parsing throws, and returns whatever JSON value the file parsed
to - with no shape validation - when parsing succeeds. -/
theorem c3_load_characterization (cur v : JValue) :
    ManifestManager.load none cur = cur ∧
    ManifestManager.load (some none) cur = emptyManifestJson ∧
    ManifestManager.load (some (some v)) cur = v :=
  ⟨rfl, rfl, rfl⟩

-- ---------------------------------------------------------------------------
-- C6 / C7: audit log capacity and `recent`
-- ---------------------------------------------------------------------------

theorem lastN_length (l : List α) (n : Nat) :
    (lastN l n).length = min n l.length := by
  simp [lastN]
  omega

theorem lastN_of_length_le (l : List α) (n : Nat) (h : l.length ≤ n) :
    lastN l n = l := by
  simp [lastN, Nat.sub_eq_zero_of_le h]

theorem record_eq_lastN (N : Nat) (hN : 1 ≤ N) (entries : List AuditEntry)
    (e : AuditEntry) :
    AuditLog.record N entries e = lastN (entries ++ [e]) N := by
  have hN0 : N ≠ 0 := Nat.one_le_iff_ne_zero.mp hN
  simp only [AuditLog.record, jsSliceNeg, lastN]
  by_cases h : N < (entries ++ [e]).length
  · rw [if_pos h, if_neg hN0]
  · rw [if_neg h, Nat.sub_eq_zero_of_le (Nat.le_of_not_lt h), List.drop_zero]

theorem lastN_eq_reverse_take (l : List α) (n : Nat) :
    lastN l n = (l.reverse.take n).reverse :=
  List.rtake_eq_reverse_take_reverse l n

theorem take_append_take_eq (n : Nat) (a b : List α) :
    (a ++ b.take n).take n = (a ++ b).take n := by
  rw [List.take_append_eq_append_take, List.take_append_eq_append_take, List.take_take]
  congr 1
  exact congrArg (fun k => List.take k b) (Nat.min_eq_left (Nat.sub_le n a.length))

theorem lastN_append_lastN (l m : List α) (N : Nat) :
    lastN (lastN l N ++ m) N = lastN (l ++ m) N := by
  calc lastN (lastN l N ++ m) N
      = ((lastN l N ++ m).reverse.take N).reverse := lastN_eq_reverse_take _ _
    _ = ((m.reverse ++ (lastN l N).reverse).take N).reverse := by
        rw [List.reverse_append]
    _ = ((m.reverse ++ l.reverse.take N).take N).reverse := by
        rw [lastN_eq_reverse_take, List.reverse_reverse]
    _ = ((m.reverse ++ l.reverse).take N).reverse := by rw [take_append_take_eq]
    _ = ((l ++ m).reverse.take N).reverse := by rw [← List.reverse_append]
    _ = lastN (l ++ m) N := (lastN_eq_reverse_take _ _).symm

theorem recordAll_foldl (N : Nat) (hN : 1 ≤ N) :
    ∀ (es acc : List AuditEntry), acc.length ≤ N →
      es.foldl (AuditLog.record N) acc = lastN (acc ++ es) N := by
  intro es
  induction es with
  | nil =>
    intro acc hacc
    simp [lastN_of_length_le acc N hacc]
  | cons e es ih =>
    intro acc hacc
    have h1 : (AuditLog.record N acc e).length ≤ N := by
      rw [record_eq_lastN N hN acc e, lastN_length]
      exact Nat.min_le_left _ _
    calc (e :: es).foldl (AuditLog.record N) acc
        = es.foldl (AuditLog.record N) (AuditLog.record N acc e) := rfl
      _ = lastN (AuditLog.record N acc e ++ es) N := ih _ h1
      _ = lastN (lastN (acc ++ [e]) N ++ es) N := by
          rw [record_eq_lastN N hN acc e]
      _ = lastN ((acc ++ [e]) ++ es) N := lastN_append_lastN _ _ _
      _ = lastN (acc ++ e :: es) N := by simp

/-- C6 counterexample: the claim quantifies over every capacity `N`, but a
log of capacity `0` grows past its capacity: `entries.slice(-0)` is
`entries.slice(0)`, the whole array, so nothing is ever evicted. -/
theorem c6_capacity_zero_counterexample :
    ¬ (AuditLog.recordAll 0 [sampleEntry]).length ≤ 0 := by
  decide

/-- C6 (amended to capacities `N ≥ 1`): after any sequence of `record`
calls the count never exceeds `N`, and once `k ≥ N` entries have been
recorded the count equals `N` and `recent(N)` returns exactly the last `N`
records in insertion order (eviction is oldest-first). -/
theorem auditLog_capacity (N : Nat) (hN : 1 ≤ N) (es : List AuditEntry) :
    (AuditLog.recordAll N es).length ≤ N ∧
    (N ≤ es.length →
      (AuditLog.recordAll N es).length = N ∧
      AuditLog.recent (AuditLog.recordAll N es) N = es.drop (es.length - N)) := by
  have hN0 : N ≠ 0 := Nat.one_le_iff_ne_zero.mp hN
  have hall : AuditLog.recordAll N es = lastN es N := by
    have h := recordAll_foldl N hN es [] (by simp)
    simpa [AuditLog.recordAll] using h
  refine ⟨?_, fun hk => ⟨?_, ?_⟩⟩
  · rw [hall, lastN_length]
    exact Nat.min_le_left _ _
  · rw [hall, lastN_length]
    omega
  · have hlen : (lastN es N).length = N := by
      rw [lastN_length]; omega
    rw [hall]
    simp only [AuditLog.recent, jsSliceNeg, if_neg hN0, hlen, Nat.sub_self,
      List.drop_zero]
    rfl

/-- Witness for `auditLog_capacity` at `N = 2` and three records. -/
theorem auditLog_capacity_witness :
    1 ≤ 2 ∧
    ((AuditLog.recordAll 2 [sampleEntry, sampleEntry, sampleEntry]).length ≤ 2 ∧
      (2 ≤ ([sampleEntry, sampleEntry, sampleEntry] : List AuditEntry).length →
        (AuditLog.recordAll 2 [sampleEntry, sampleEntry, sampleEntry]).length = 2 ∧
        AuditLog.recent (AuditLog.recordAll 2 [sampleEntry, sampleEntry, sampleEntry]) 2
          = [sampleEntry, sampleEntry, sampleEntry].drop
              (([sampleEntry, sampleEntry, sampleEntry] : List AuditEntry).length - 2))) :=
  ⟨by decide, auditLog_capacity 2 (by decide) [sampleEntry, sampleEntry, sampleEntry]⟩

/-- C7 counterexample: the claim says `recent(0)` returns no entries, but
`entries.slice(-0)` is `entries.slice(0)`: on a log holding one entry,
`recent(0)` returns that entry. -/
theorem c7_recent_zero_counterexample :
    AuditLog.recent [sampleEntry] 0 = [sampleEntry] ∧
    [sampleEntry] ≠ ([] : List AuditEntry) :=
  ⟨rfl, by simp⟩

/-- C7 (amended to counts `c ≥ 1`; `recent 0` returns all entries instead
of none): `recent(c)` returns exactly the last `min c size` entries in
insertion order, and the default count is 50. -/
theorem auditLog_recent_characterization (entries : List AuditEntry) (c : Nat)
    (hc : 1 ≤ c) :
    AuditLog.recent entries c = entries.drop (entries.length - c) ∧
    (AuditLog.recent entries c).length = min c entries.length ∧
    AuditLog.recent entries = AuditLog.recent entries 50 := by
  have hc0 : c ≠ 0 := Nat.one_le_iff_ne_zero.mp hc
  refine ⟨?_, ?_, rfl⟩
  · simp [AuditLog.recent, jsSliceNeg, hc0]
  · simp [AuditLog.recent, jsSliceNeg, hc0]
    omega

-- ---------------------------------------------------------------------------
-- C2: glob matching in the permission guard
-- ---------------------------------------------------------------------------

/-- C2 counterexample: the escaping step of `matchGlob` does not cover `?`,
so in the pattern `"ab?*"` the `?` is a live regex quantifier making the
`b` optional instead of a literal.  With the single rule
`{tool: "ab?*", allow: true}`, `checkToolPermission("a")` is ALLOWED
(the compiled regex `^ab?.*$` matches `"a"`), while under the claimed glob
semantics no rule matches `"a"` (which does not start with literal `ab?`),
so the check would be denied. -/
theorem c2_question_mark_counterexample :
    PermissionGuard.checkToolPermission
        [{ tool := "ab?*", allow := true }] "a" none
      = Except.ok { allowed := true } ∧
    matchGlobSpec "ab?*" "a" = false := by
  constructor
  · simp [PermissionGuard.checkToolPermission, PermissionGuard.findMatchingRule,
      PermissionGuard.findGlobRule, matchGlob, globTokens, rmatch, strIncludes,
      List.tails, List.isPrefixOf]
  · simp [matchGlobSpec, globMatchSpec]

theorem globTokens_no_question (p : List Char) (hp : '?' ∉ p) :
    globTokens p
      = some (p.map (fun c => if c = '*' then GTok.star else GTok.lit c)) := by
  induction p with
  | nil => rfl
  | cons c rest ih =>
    have hc : c ≠ '?' := fun h => hp (by rw [h]; exact List.mem_cons_self _ _)
    have hrest : '?' ∉ rest := fun h => hp (List.mem_cons_of_mem c h)
    have ihr := ih hrest
    by_cases hs : c = '*'
    · subst hs
      cases rest with
      | nil => simp [globTokens]
      | cons d rest2 =>
        have hd : d ≠ '?' :=
          fun h => hrest (by rw [h]; exact List.mem_cons_self _ _)
        simp [globTokens, hd, ihr]
    · cases rest with
      | nil => simp [globTokens, hc, hs]
      | cons d rest2 =>
        have hd : d ≠ '?' :=
          fun h => hrest (by rw [h]; exact List.mem_cons_self _ _)
        simp [globTokens, hc, hs, hd, ihr]

theorem rmatch_map_eq_globMatchSpec :
    ∀ (n : Nat) (p v : List Char), p.length + v.length ≤ n →
      (∀ c ∈ v, isLineTerminator c = false) →
      rmatch (p.map (fun c => if c = '*' then GTok.star else GTok.lit c)) v
        = globMatchSpec p v := by
  intro n
  induction n with
  | zero =>
    intro p v hle hv
    have hp : p = [] := List.eq_nil_of_length_eq_zero (by omega)
    have hvn : v = [] := List.eq_nil_of_length_eq_zero (by omega)
    subst hp; subst hvn
    simp [rmatch, globMatchSpec]
  | succ n ih =>
    intro p v hle hv
    cases p with
    | nil =>
      cases v with
      | nil => simp [rmatch, globMatchSpec]
      | cons x xs => simp [rmatch, globMatchSpec]
    | cons c ps =>
      by_cases hs : c = '*'
      · subst hs
        cases v with
        | nil =>
          have h1 : ps.length + ([] : List Char).length ≤ n := by
            simp at hle ⊢; omega
          rw [show (('*' :: ps).map
                (fun c => if c = '*' then GTok.star else GTok.lit c))
              = GTok.star :: (ps.map
                (fun c => if c = '*' then GTok.star else GTok.lit c)) by simp]
          rw [show rmatch (GTok.star :: (ps.map
                (fun c => if c = '*' then GTok.star else GTok.lit c))) []
              = rmatch (ps.map
                (fun c => if c = '*' then GTok.star else GTok.lit c)) [] by
            simp [rmatch]]
          rw [show globMatchSpec ('*' :: ps) [] = globMatchSpec ps [] by
            simp [globMatchSpec]]
          exact ih ps [] h1 hv
        | cons x xs =>
          have hx := hv x (List.mem_cons_self x xs)
          have hxs : ∀ c ∈ xs, isLineTerminator c = false :=
            fun c hcm => hv c (List.mem_cons_of_mem x hcm)
          have h1 : ps.length + (x :: xs).length ≤ n := by
            simp at hle ⊢; omega
          have h2 : ('*' :: ps).length + xs.length ≤ n := by
            simp at hle ⊢; omega
          have e1 := ih ps (x :: xs) h1 hv
          have e2 := ih ('*' :: ps) xs h2 hxs
          rw [show (('*' :: ps).map
                (fun c => if c = '*' then GTok.star else GTok.lit c))
              = GTok.star :: (ps.map
                (fun c => if c = '*' then GTok.star else GTok.lit c)) by simp]
          rw [show rmatch (GTok.star :: (ps.map
                (fun c => if c = '*' then GTok.star else GTok.lit c))) (x :: xs)
              = (rmatch (ps.map
                  (fun c => if c = '*' then GTok.star else GTok.lit c)) (x :: xs)
                 || (!isLineTerminator x
                     && rmatch (GTok.star :: (ps.map
                          (fun c => if c = '*' then GTok.star else GTok.lit c))) xs)) by
            simp [rmatch]]
          rw [show globMatchSpec ('*' :: ps) (x :: xs)
              = (globMatchSpec ps (x :: xs) || globMatchSpec ('*' :: ps) xs) by
            simp [globMatchSpec]]
          rw [hx, e1]
          simp only [List.map_cons] at e2
          simp at e2
          simp [e2]
      · cases v with
        | nil =>
          simp [rmatch, globMatchSpec, hs]
        | cons x xs =>
          have hxs : ∀ c ∈ xs, isLineTerminator c = false :=
            fun c hcm => hv c (List.mem_cons_of_mem x hcm)
          have h1 : ps.length + xs.length ≤ n := by
            simp at hle ⊢; omega
          have e1 := ih ps xs h1 hxs
          simp [rmatch, globMatchSpec, hs, e1]

/-- C2 (amended): `?` is not among the escaped characters: it survives into
the compiled regex as a quantifier making the preceding atom optional (and
a pattern whose `?` has nothing to repeat makes the `RegExp` constructor
throw, so `checkToolPermission` throws).  For patterns containing no `?`
the claimed glob semantics do hold, restricted to tool names without
line-terminator characters (the compiled `.` does not match those):
`matchGlob` then equals the claimed literal glob matcher. -/
theorem matchGlob_eq_spec_of_no_question (pattern value : String)
    (hp : '?' ∉ pattern.data)
    (hv : ∀ c ∈ value.data, isLineTerminator c = false) :
    matchGlob pattern value = some (matchGlobSpec pattern value) := by
  rw [matchGlob, globTokens_no_question pattern.data hp, Option.map_some']
  exact congrArg some
    (rmatch_map_eq_globMatchSpec (pattern.data.length + value.data.length)
      pattern.data value.data (Nat.le_refl _) hv)

/-- Witness for `matchGlob_eq_spec_of_no_question` on the rule pattern
`"file_*"` and the tool name `"file_read"` from the test suite. -/
theorem matchGlob_no_question_witness :
    ('?' ∉ ("file_*" : String).data ∧
      ∀ c ∈ ("file_read" : String).data, isLineTerminator c = false) ∧
    matchGlob "file_*" "file_read" = some (matchGlobSpec "file_*" "file_read") :=
  ⟨⟨by decide, by decide⟩,
    matchGlob_eq_spec_of_no_question "file_*" "file_read" (by decide) (by decide)⟩

-- ---------------------------------------------------------------------------
-- C4: request timeout followed by a late response
-- ---------------------------------------------------------------------------

theorem lookupId_eq_none_iff (m : List (Nat × α)) (id : Nat) :
    lookupId m id = none ↔ ∀ p ∈ m, p.1 ≠ id := by
  simp [lookupId, List.find?_eq_none]

theorem lookupId_eraseId_self (m : List (Nat × α)) (id : Nat) :
    lookupId (eraseId m id) id = none := by
  rw [lookupId_eq_none_iff]
  intro p hp
  have h := List.of_mem_filter hp
  simpa using h

theorem lookupId_eraseId_of_none {m : List (Nat × α)} {id : Nat} (j : Nat)
    (h : lookupId m id = none) : lookupId (eraseId m j) id = none := by
  rw [lookupId_eq_none_iff] at h ⊢
  intro p hp
  exact h p (List.mem_of_mem_filter hp)

theorem settleOnce_filter_ne (log : List (Nat × Settlement)) (j : Nat)
    (x : Settlement) (id : Nat) (hne : j ≠ id) :
    (settleOnce log j x).filter (fun p => p.1 == id)
      = log.filter (fun p => p.1 == id) := by
  unfold settleOnce
  split
  · rfl
  · rw [List.filter_append]
    simp [hne]

theorem settleOnce_any_ne (log : List (Nat × Settlement)) (j : Nat)
    (x : Settlement) (id : Nat) (hne : j ≠ id) :
    (settleOnce log j x).any (fun p => p.1 == id)
      = log.any (fun p => p.1 == id) := by
  unfold settleOnce
  split
  · rfl
  · rw [List.any_append]
    simp [hne]

theorem settleOnce_of_settled (log : List (Nat × Settlement)) (x : Settlement)
    (id : Nat) (h : log.any (fun p => p.1 == id) = true) :
    settleOnce log id x = log := by
  unfold settleOnce
  rw [if_pos h]

theorem foldl_settleOnce_preserves (id : Nat) (g : Nat × String → Settlement) :
    ∀ (l : List (Nat × String)) (log : List (Nat × Settlement)),
      (∀ p ∈ l, p.1 ≠ id) →
      ((l.foldl (fun acc p => settleOnce acc p.1 (g p)) log).filter
            (fun p => p.1 == id)
          = log.filter (fun p => p.1 == id)) ∧
      ((l.foldl (fun acc p => settleOnce acc p.1 (g p)) log).any
            (fun p => p.1 == id)
          = log.any (fun p => p.1 == id)) := by
  intro l
  induction l with
  | nil => exact fun log _ => ⟨rfl, rfl⟩
  | cons q l ih =>
    intro log h
    have hq : q.1 ≠ id := h q (List.mem_cons_self q l)
    have hrest : ∀ p ∈ l, p.1 ≠ id := fun p hp => h p (List.mem_cons_of_mem q hp)
    obtain ⟨ha, hb⟩ := ih (settleOnce log q.1 (g q)) hrest
    refine ⟨?_, ?_⟩ <;> simp only [List.foldl_cons]
    · rw [ha, settleOnce_filter_ne log q.1 (g q) id hq]
    · rw [hb, settleOnce_any_ne log q.1 (g q) id hq]

theorem step_preserves_absent (t : Nat) (id : Nat) (s : ProtoState)
    (hp : lookupId s.pending id = none)
    (ht : lookupId s.timers id = none)
    (hs : s.settled.any (fun p => p.1 == id) = true)
    (hn : id < s.nextId) (ev : MCPProtocol.ProtoEvent) :
    lookupId (MCPProtocol.step t s ev).pending id = none ∧
    lookupId (MCPProtocol.step t s ev).timers id = none ∧
    (MCPProtocol.step t s ev).settled.any (fun p => p.1 == id) = true ∧
    id < (MCPProtocol.step t s ev).nextId ∧
    (MCPProtocol.step t s ev).settled.filter (fun p => p.1 == id)
      = s.settled.filter (fun p => p.1 == id) := by
  cases ev with
  | newRequest m =>
    simp only [MCPProtocol.step, MCPProtocol.mkRequest]
    refine ⟨?_, ?_, hs, by omega, by trivial⟩
    · rw [lookupId_eq_none_iff] at hp ⊢
      intro p hpmem
      rcases List.mem_append.mp hpmem with h1 | h1
      · exact hp p h1
      · simp only [List.mem_singleton] at h1
        rw [h1]
        omega
    · rw [lookupId_eq_none_iff] at ht ⊢
      intro p hpmem
      rcases List.mem_append.mp hpmem with h1 | h1
      · exact ht p h1
      · simp only [List.mem_singleton] at h1
        rw [h1]
        omega
  | timerFire j =>
    simp only [MCPProtocol.step]
    cases hj : lookupId s.timers j with
    | none => exact ⟨hp, ht, hs, hn, rfl⟩
    | some m =>
      have hne : j ≠ id := by
        intro he
        rw [he, ht] at hj
        cases hj
      exact ⟨lookupId_eraseId_of_none j hp, lookupId_eraseId_of_none j ht,
        by rw [settleOnce_any_ne _ _ _ _ hne]; exact hs, hn,
        settleOnce_filter_ne _ _ _ _ hne⟩
  | recvResponse j err res =>
    simp only [MCPProtocol.step]
    cases hj : lookupId s.pending j with
    | none => exact ⟨hp, ht, hs, hn, rfl⟩
    | some m =>
      have hne : j ≠ id := by
        intro he
        rw [he, hp] at hj
        cases hj
      exact ⟨lookupId_eraseId_of_none j hp, lookupId_eraseId_of_none j ht,
        by rw [settleOnce_any_ne _ _ _ _ hne]; exact hs, hn,
        settleOnce_filter_ne _ _ _ _ hne⟩
  | recvNotification m => exact ⟨hp, ht, hs, hn, rfl⟩
  | sendFail j msg =>
    simp only [MCPProtocol.step]
    by_cases hje : j = id
    · subst hje
      exact ⟨lookupId_eraseId_of_none j hp, lookupId_eraseId_of_none j ht,
        by rw [settleOnce_of_settled _ _ _ hs]; exact hs, hn,
        by rw [settleOnce_of_settled _ _ _ hs]⟩
    · exact ⟨lookupId_eraseId_of_none j hp, lookupId_eraseId_of_none j ht,
        by rw [settleOnce_any_ne _ _ _ _ hje]; exact hs, hn,
        settleOnce_filter_ne _ _ _ _ hje⟩
  | transportClose code =>
    simp only [MCPProtocol.step]
    have hmem : ∀ p ∈ s.pending, p.1 ≠ id := (lookupId_eq_none_iff _ _).mp hp
    obtain ⟨ha, hb⟩ := foldl_settleOnce_preserves id
      (fun _ => Settlement.rejectedWith
        ("Transport closed with code " ++ toString code))
      s.pending s.settled hmem
    exact ⟨by simp [lookupId], by simp [lookupId], by rw [hb]; exact hs, hn, ha⟩

theorem run_preserves_filter (t id : Nat) :
    ∀ (evs : List MCPProtocol.ProtoEvent) (s : ProtoState),
      lookupId s.pending id = none → lookupId s.timers id = none →
      s.settled.any (fun p => p.1 == id) = true → id < s.nextId →
      (MCPProtocol.run t s evs).settled.filter (fun p => p.1 == id)
        = s.settled.filter (fun p => p.1 == id) := by
  intro evs
  induction evs with
  | nil => exact fun s _ _ _ _ => rfl
  | cons ev evs ih =>
    intro s hp ht hs hn
    obtain ⟨h1, h2, h3, h4, h5⟩ := step_preserves_absent t id s hp ht hs hn ev
    calc (MCPProtocol.run t s (ev :: evs)).settled.filter (fun p => p.1 == id)
        = (MCPProtocol.run t (MCPProtocol.step t s ev) evs).settled.filter
            (fun p => p.1 == id) := rfl
      _ = (MCPProtocol.step t s ev).settled.filter (fun p => p.1 == id) :=
          ih _ h1 h2 h3 h4
      _ = s.settled.filter (fun p => p.1 == id) := h5

theorem step_recvResponse_of_absent (t : Nat) (s : ProtoState) (id : Nat)
    (h : lookupId s.pending id = none) (err : Option String) (res : JValue) :
    MCPProtocol.step t s (MCPProtocol.ProtoEvent.recvResponse id err res) = s := by
  simp only [MCPProtocol.step, h]

/-- C4: on an engine holding a live request `id` (pending entry and armed
timer, not yet settled), the timer firing removes the pending entry and
rejects the caller exactly once with the timeout error naming the method
and id; afterwards no event sequence ever resolves or rejects that request
again, and in particular the late matching response leaves the engine state
completely unchanged (it is silently dropped). -/
theorem protocol_timeout_exactly_once (t : Nat) (s : ProtoState) (id : Nat)
    (method : String)
    (hpend : lookupId s.pending id = some method)
    (htimer : lookupId s.timers id = some method)
    (hunsettled : s.settled.filter (fun p => p.1 == id) = [])
    (hid : id < s.nextId) :
    lookupId (MCPProtocol.step t s (MCPProtocol.ProtoEvent.timerFire id)).pending id
        = none ∧
    (∀ evs : List MCPProtocol.ProtoEvent,
      (MCPProtocol.run t (MCPProtocol.step t s (MCPProtocol.ProtoEvent.timerFire id))
          evs).settled.filter (fun p => p.1 == id)
        = [(id, Settlement.rejectedWith (timeoutMessage method id t))]) ∧
    (∀ (err : Option String) (res : JValue),
      MCPProtocol.step t (MCPProtocol.step t s (MCPProtocol.ProtoEvent.timerFire id))
          (MCPProtocol.ProtoEvent.recvResponse id err res)
        = MCPProtocol.step t s (MCPProtocol.ProtoEvent.timerFire id)) := by
  have hany : s.settled.any (fun p => p.1 == id) = false := by
    rw [List.any_eq_false]
    intro p hpmem
    intro hpid
    have : p ∈ s.settled.filter (fun p => p.1 == id) :=
      List.mem_filter.mpr ⟨hpmem, hpid⟩
    rw [hunsettled] at this
    cases this
  have hstep : MCPProtocol.step t s (MCPProtocol.ProtoEvent.timerFire id)
      = { s with
            timers := eraseId s.timers id
            pending := eraseId s.pending id
            settled := settleOnce s.settled id
              (Settlement.rejectedWith (timeoutMessage method id t)) } := by
    simp only [MCPProtocol.step, htimer]
  have hsettle : settleOnce s.settled id
        (Settlement.rejectedWith (timeoutMessage method id t))
      = s.settled ++ [(id, Settlement.rejectedWith (timeoutMessage method id t))] := by
    unfold settleOnce
    rw [if_neg (by simp [hany])]
  have hfilter : (settleOnce s.settled id
        (Settlement.rejectedWith (timeoutMessage method id t))).filter
          (fun p => p.1 == id)
      = [(id, Settlement.rejectedWith (timeoutMessage method id t))] := by
    rw [hsettle, List.filter_append, hunsettled]
    simp
  have hany2 : (settleOnce s.settled id
        (Settlement.rejectedWith (timeoutMessage method id t))).any
          (fun p => p.1 == id) = true := by
    rw [hsettle, List.any_append]
    simp
  refine ⟨?_, ?_, ?_⟩
  · rw [hstep]
    exact lookupId_eraseId_self s.pending id
  · intro evs
    rw [hstep]
    have hrun := run_preserves_filter t id evs
      { s with
          timers := eraseId s.timers id
          pending := eraseId s.pending id
          settled := settleOnce s.settled id
            (Settlement.rejectedWith (timeoutMessage method id t)) }
      (lookupId_eraseId_self s.pending id)
      (lookupId_eraseId_self s.timers id)
      hany2 hid
    exact hrun.trans hfilter
  · intro err res
    apply step_recvResponse_of_absent
    rw [hstep]
    exact lookupId_eraseId_self s.pending id

/-- Witness for `protocol_timeout_exactly_once` on a fresh engine carrying
request 1 for method `"slow/method"`; the late response is checked by the
theorem's last conjunct. -/
theorem protocol_timeout_witness :
    (lookupId protoWitnessState.pending 1 = some "slow/method" ∧
      lookupId protoWitnessState.timers 1 = some "slow/method" ∧
      protoWitnessState.settled.filter (fun p => p.1 == 1) = [] ∧
      1 < protoWitnessState.nextId) ∧
    (lookupId (MCPProtocol.step 30000 protoWitnessState
          (MCPProtocol.ProtoEvent.timerFire 1)).pending 1 = none ∧
      (∀ evs : List MCPProtocol.ProtoEvent,
        (MCPProtocol.run 30000
            (MCPProtocol.step 30000 protoWitnessState
              (MCPProtocol.ProtoEvent.timerFire 1)) evs).settled.filter
              (fun p => p.1 == 1)
          = [(1, Settlement.rejectedWith (timeoutMessage "slow/method" 1 30000))]) ∧
      (∀ (err : Option String) (res : JValue),
        MCPProtocol.step 30000
            (MCPProtocol.step 30000 protoWitnessState
              (MCPProtocol.ProtoEvent.timerFire 1))
            (MCPProtocol.ProtoEvent.recvResponse 1 err res)
          = MCPProtocol.step 30000 protoWitnessState
              (MCPProtocol.ProtoEvent.timerFire 1))) :=
  ⟨⟨rfl, rfl, rfl, by decide⟩,
    protocol_timeout_exactly_once 30000 protoWitnessState 1 "slow/method"
      rfl rfl rfl (by decide)⟩

-- ---------------------------------------------------------------------------
-- C8: findTool resolution
-- ---------------------------------------------------------------------------

theorem splitFirst_eq_none_iff (sep : Char) (s : List Char) :
    ManifestManager.splitFirst sep s = none ↔ sep ∉ s := by
  induction s with
  | nil => simp [ManifestManager.splitFirst]
  | cons x xs ih =>
    simp only [ManifestManager.splitFirst]
    by_cases hx : x = sep
    · subst hx
      simp
    · rw [if_neg hx]
      simp only [Option.map_eq_none', ih, List.mem_cons]
      constructor
      · intro hns h
        rcases h with h | h
        · exact hx h.symm
        · exact hns h
      · intro hn
        exact fun h => hn (Or.inr h)

theorem splitFirst_eq_some_of_mem (sep : Char) (s : List Char) (h : sep ∈ s) :
    ManifestManager.splitFirst sep s
      = some (s.takeWhile (fun c => c ≠ sep), (s.dropWhile (fun c => c ≠ sep)).tail) := by
  induction s with
  | nil => cases h
  | cons x xs ih =>
    by_cases hx : x = sep
    · subst hx
      simp [ManifestManager.splitFirst, List.takeWhile_cons, List.dropWhile_cons]
    · have hmem : sep ∈ xs := by
        rcases List.mem_cons.mp h with h1 | h1
        · exact absurd h1.symm hx
        · exact h1
      rw [show ManifestManager.splitFirst sep (x :: xs)
            = (ManifestManager.splitFirst sep xs).map (fun p => (x :: p.1, p.2)) by
          simp [ManifestManager.splitFirst, hx]]
      rw [ih hmem]
      simp [List.takeWhile_cons, List.dropWhile_cons, hx]

theorem scanTool_eq_head (servers : List (String × ServerManifestEntry)) (q : String) :
    ManifestManager.scanTool servers q
      = (servers.filterMap (fun p =>
          (p.2.tools.bind (fun ts => ts.find? (fun t => t.name == q))).map
            (fun t => (p.1, t)))).head? := by
  induction servers with
  | nil => rfl
  | cons p rest ih =>
    obtain ⟨name, entry⟩ := p
    cases hfind : entry.tools.bind (fun ts => ts.find? (fun t => t.name == q)) with
    | none =>
      rw [List.filterMap_cons]
      dsimp only [ManifestManager.scanTool]
      rw [hfind]
      exact ih
    | some t =>
      rw [List.filterMap_cons]
      dsimp only [ManifestManager.scanTool]
      rw [hfind]
      rfl

/-- C8: `findTool` behaves exactly as the specification describes: a query
containing a dot is split at the first `.` into server and tool name and
resolved against that server's cached tools (undefined when the server is
unknown, has no cached tools, or the tool is absent); a dot-free query is
resolved to the first matching cached tool scanning servers in insertion
order. -/
theorem findTool_eq_spec (servers : List (String × ServerManifestEntry))
    (q : String) :
    ManifestManager.findTool servers q = ManifestManager.findToolSpec servers q := by
  by_cases hq : '.' ∈ q.data
  · unfold ManifestManager.findTool ManifestManager.findToolSpec
    rw [splitFirst_eq_some_of_mem '.' q.data hq, if_pos hq]
    dsimp only
    cases hjs : jsGet servers (String.mk (q.data.takeWhile (fun c => c ≠ '.'))) with
    | none => simp [hjs]
    | some entry =>
      cases htools : entry.tools with
      | none => simp [hjs, htools]
      | some ts => simp [hjs, htools]
  · unfold ManifestManager.findTool ManifestManager.findToolSpec
    rw [(splitFirst_eq_none_iff '.' q.data).mpr hq, if_neg hq]
    exact scanTool_eq_head servers q

-- ---------------------------------------------------------------------------
-- C9: stdout framing
-- ---------------------------------------------------------------------------

theorem extractLines_append (a b : List Char) :
    StdioTransport.extractLines (a ++ b)
      = ((StdioTransport.extractLines a).1
            ++ (StdioTransport.extractLines ((StdioTransport.extractLines a).2 ++ b)).1,
         (StdioTransport.extractLines ((StdioTransport.extractLines a).2 ++ b)).2) := by
  induction a with
  | nil => simp [StdioTransport.extractLines]
  | cons c a ih =>
    by_cases hc : c = '\n'
    · subst hc
      simp [StdioTransport.extractLines, ih]
    · cases hE : (StdioTransport.extractLines a).1 with
      | nil =>
        cases hq : (StdioTransport.extractLines
            ((StdioTransport.extractLines a).2 ++ b)).1 with
        | nil => simp [StdioTransport.extractLines, hc, ih, hE, hq]
        | cons l ls => simp [StdioTransport.extractLines, hc, ih, hE, hq]
      | cons l ls => simp [StdioTransport.extractLines, hc, ih, hE]

theorem extractLines_of_no_newline (s : List Char) (h : '\n' ∉ s) :
    StdioTransport.extractLines s = ([], s) := by
  induction s with
  | nil => rfl
  | cons c s ih =>
    have hc : ¬ c = '\n' := fun hcc => h (hcc ▸ List.mem_cons_self c s)
    have hs : '\n' ∉ s := fun hm => h (List.mem_cons_of_mem c hm)
    simp [StdioTransport.extractLines, hc, ih hs]

theorem extractLines_buffer_no_newline (s : List Char) :
    '\n' ∉ (StdioTransport.extractLines s).2 := by
  induction s with
  | nil => simp [StdioTransport.extractLines]
  | cons c s ih =>
    by_cases hc : c = '\n'
    · subst hc
      simpa [StdioTransport.extractLines] using ih
    · cases hE : (StdioTransport.extractLines s).1 with
      | nil =>
        simp only [StdioTransport.extractLines, if_neg hc, hE]
        intro hmem
        rcases List.mem_cons.mp hmem with h1 | h1
        · exact hc h1.symm
        · exact ih h1
      | cons l ls =>
        simp only [StdioTransport.extractLines, if_neg hc, hE]
        exact ih

theorem processChunks_eq_whole (parse : List Char → Option JValue) :
    ∀ (chunks : List (List Char)) (buf : List Char), '\n' ∉ buf →
      StdioTransport.processChunks parse buf chunks
        = (StdioTransport.lineEvents parse
             (StdioTransport.extractLines (buf ++ chunks.flatten)).1,
           (StdioTransport.extractLines (buf ++ chunks.flatten)).2) := by
  intro chunks
  induction chunks with
  | nil =>
    intro buf hbuf
    simp [StdioTransport.processChunks, extractLines_of_no_newline buf hbuf,
      StdioTransport.lineEvents]
  | cons d ds ih =>
    intro buf hbuf
    have hbuf2 : '\n' ∉ (StdioTransport.extractLines (buf ++ d)).2 :=
      extractLines_buffer_no_newline (buf ++ d)
    have happ := extractLines_append (buf ++ d) ds.flatten
    simp only [StdioTransport.processChunks, StdioTransport.handleData]
    rw [ih _ hbuf2]
    rw [List.flatten_cons, ← List.append_assoc, happ]
    simp [StdioTransport.lineEvents, List.filterMap_append]

/-- C9 counterexample: deliver the single chunk `" \n"`.  The complete
line `" "` is non-empty, and whitespace is not valid JSON, so the claim
predicts one error event; `handleData` trims the line first and skips it
silently, emitting nothing.  (`lineEventsSpec` is the claim's description
of the per-line behaviour; the prediction holds for every parse function,
in particular the JSON one, for which `parse " " = none`.) -/
theorem c9_blank_line_counterexample :
    (StdioTransport.processChunks (fun _ => none) [] [[' ', '\n']]).1 = [] ∧
    StdioTransport.lineEventsSpec (fun _ => none)
        (StdioTransport.extractLines [' ', '\n']).1
      = [TransportEvent.errorEv []] :=
  ⟨rfl, rfl⟩

/-- C9 (amended: lines that are blank after trimming - not only empty
lines - are skipped silently): for every stdout byte stream and every way
of splitting it into chunks, the transport emits the same events as
processing the whole stream at once: one event per complete line that is
non-blank after trimming (a `message` event when the trimmed line parses,
an `error` event carrying the truncated excerpt when it does not), with
the trailing partial line buffered; no path emits a `close` event. -/
theorem chunked_framing_invariant (parse : List Char → Option JValue)
    (chunks : List (List Char)) :
    StdioTransport.processChunks parse [] chunks
      = (StdioTransport.lineEvents parse
           (StdioTransport.extractLines chunks.flatten).1,
         (StdioTransport.extractLines chunks.flatten).2) := by
  simpa using processChunks_eq_whole parse chunks [] (by simp)

/-- Witness for `auditLog_recent_characterization` at count 1 on a
one-entry log. -/
theorem auditLog_recent_witness :
    1 ≤ 1 ∧
    (AuditLog.recent [sampleEntry] 1
        = [sampleEntry].drop (([sampleEntry] : List AuditEntry).length - 1) ∧
      (AuditLog.recent [sampleEntry] 1).length
        = min 1 ([sampleEntry] : List AuditEntry).length ∧
      AuditLog.recent [sampleEntry] = AuditLog.recent [sampleEntry] 50) :=
  ⟨by decide, auditLog_recent_characterization [sampleEntry] 1 (by decide)⟩

-- ---------------------------------------------------------------------------
-- C5 / C10: server manager start failure and startAll registration
-- ---------------------------------------------------------------------------

theorem mem_jsDelete {m : List (String × α)} {k : String} {p : String × α}
    (hp : p ∈ jsDelete m k) : p ∈ m ∧ p.1 ≠ k := by
  unfold jsDelete at hp
  refine ⟨List.mem_of_mem_filter hp, ?_⟩
  have h := List.of_mem_filter hp
  simpa using h

theorem mem_jsSet {m : List (String × α)} {k : String} {v : α} {p : String × α}
    (hp : p ∈ jsSet m k v) : p = (k, v) ∨ p ∈ m := by
  unfold jsSet at hp
  split at hp
  · obtain ⟨q, hq, he⟩ := List.mem_map.mp hp
    by_cases hqk : q.1 == k
    · left
      rw [if_pos hqk] at he
      exact he.symm
    · right
      rw [if_neg hqk] at he
      exact he ▸ hq
  · rcases List.mem_append.mp hp with h | h
    · right; exact h
    · left; simpa using h

theorem jsGet_jsDelete_self (m : List (String × α)) (k : String) :
    jsGet (jsDelete m k) k = none := by
  unfold jsGet
  rw [Option.map_eq_none', List.find?_eq_none]
  intro p hp
  have h := (mem_jsDelete hp).2
  simpa using h

theorem find?_map_replace (m : List (String × α)) (k : String) (v : α)
    (hm : m.any (fun p => p.1 == k) = true) :
    (m.map (fun p => if p.1 == k then (k, v) else p)).find? (fun p => p.1 == k)
      = some (k, v) := by
  induction m with
  | nil => simp at hm
  | cons q m ih =>
    simp only [List.map_cons]
    by_cases hq : (q.1 == k) = true
    · rw [if_pos hq]
      exact List.find?_cons_of_pos _ (by simp)
    · have hm2 : m.any (fun p => p.1 == k) = true := by
        simpa [List.any_cons, hq] using hm
      rw [if_neg hq, List.find?_cons_of_neg _ (by simpa using hq)]
      exact ih hm2

theorem jsGet_jsSet_self (m : List (String × α)) (k : String) (v : α) :
    jsGet (jsSet m k v) k = some v := by
  unfold jsSet
  by_cases hm : m.any (fun p => p.1 == k) = true
  · rw [if_pos hm]
    unfold jsGet
    rw [find?_map_replace m k v hm]
    rfl
  · rw [if_neg hm]
    unfold jsGet
    have hnone : m.find? (fun p => p.1 == k) = none := by
      rw [List.find?_eq_none]
      intro p hp hcontra
      exact hm (List.any_eq_true.mpr ⟨p, hp, hcontra⟩)
    rw [List.find?_append, hnone]
    simp

theorem stopInternal_servers_subset (s : MgrState) (name : String) :
    ∀ p ∈ (ServerManager.stopInternal s name).servers, p ∈ s.servers := by
  intro p hp
  unfold ServerManager.stopInternal at hp
  cases hg : jsGet s.servers name with
  | none => rw [hg] at hp; exact hp
  | some managed =>
    rw [hg] at hp
    exact (mem_jsDelete hp).1

theorem startFresh_connect_failure (s : MgrState) (config : ServerConfig)
    (conn : ConnectResult) (msg : String)
    (hinv : ∀ p ∈ s.servers, p.2.state.name = p.1)
    (h : (ServerManager.start.startFresh s config conn).2
        = StartOutcome.errConnect msg) :
    jsGet (ServerManager.start.startFresh s config conn).1.servers config.name
        = none ∧
    (∀ st ∈ ServerManager.list (ServerManager.start.startFresh s config conn).1,
      st.name ≠ config.name) ∧
    (ServerManager.start.startFresh s config conn).1.events.getLast?
      = some (config.name,
          { name := config.name, status := ServerStatus.error, error := some msg }) ∧
    (∀ conn2, (ServerManager.start
        (ServerManager.start.startFresh s config conn).1 config conn2).2
      ≠ StartOutcome.errAlreadyRunning) := by
  cases conn with
  | success caps info time toolCount =>
    simp [ServerManager.start.startFresh] at h
  | failure m =>
    have hmsg : m = msg := by
      simpa [ServerManager.start.startFresh] using h
    subst hmsg
    have hdel : jsGet (ServerManager.start.startFresh s config
        (ConnectResult.failure m)).1.servers config.name = none := by
      simp only [ServerManager.start.startFresh]
      exact jsGet_jsDelete_self _ _
    refine ⟨hdel, ?_, ?_, ?_⟩
    · intro st hst
      obtain ⟨p, hpmem, hpst⟩ := List.mem_map.mp hst
      simp only [ServerManager.start.startFresh] at hpmem
      obtain ⟨hpmem2, hpne⟩ := mem_jsDelete hpmem
      rcases mem_jsSet hpmem2 with he | hold
      · exact absurd (by rw [he]) hpne
      · rw [← hpst]
        rw [hinv p hold]
        exact hpne
    · simp only [ServerManager.start.startFresh]
      rw [List.getLast?_concat]
    · intro conn2
      unfold ServerManager.start
      rw [hdel]
      cases conn2 <;> simp [ServerManager.start.startFresh]

/-- C5 counterexample: on a manager where `"srv"` is running, `start`
throws (`Server "srv" is already running`) but leaves the manager state
completely unchanged: `list()` still contains a state named `"srv"`, no
`error` state change is emitted, and a retry throws again. -/
theorem c5_already_running_counterexample :
    (ServerManager.start runningMgrState sampleConfig
        (ConnectResult.success none none 0 0)).2
      = StartOutcome.errAlreadyRunning ∧
    (ServerManager.start runningMgrState sampleConfig
        (ConnectResult.success none none 0 0)).1 = runningMgrState ∧
    (ServerManager.list runningMgrState).map (fun st => st.name) = ["srv"] :=
  ⟨rfl, rfl, rfl⟩

/-- C5 (amended to the connect/handshake failure path, i.e. every throw
other than the duplicate-running error): if `start(config)` throws because
`client.connect` failed, then afterwards the map has no entry named
`config.name` and `list()` contains no state named `config.name`, the last
emitted `stateChange` event is `(config.name, {status: error, error: msg})`,
and `start(config)` may be invoked again: a retry can never throw the
already-running error.  (When `start` throws because the server is already
running, the entry stays visible to `list` and no event is emitted, as the
counterexample shows.) -/
theorem start_connect_failure_cleanup (s : MgrState) (config : ServerConfig)
    (conn : ConnectResult) (msg : String)
    (hinv : ∀ p ∈ s.servers, p.2.state.name = p.1)
    (h : (ServerManager.start s config conn).2 = StartOutcome.errConnect msg) :
    jsGet (ServerManager.start s config conn).1.servers config.name = none ∧
    (∀ st ∈ ServerManager.list (ServerManager.start s config conn).1,
      st.name ≠ config.name) ∧
    (ServerManager.start s config conn).1.events.getLast?
      = some (config.name,
          { name := config.name, status := ServerStatus.error, error := some msg }) ∧
    (∀ conn2, (ServerManager.start (ServerManager.start s config conn).1
        config conn2).2 ≠ StartOutcome.errAlreadyRunning) := by
  unfold ServerManager.start at h ⊢
  cases hg : jsGet s.servers config.name with
  | none =>
    rw [hg] at h
    dsimp only at h ⊢
    exact startFresh_connect_failure s config conn msg hinv h
  | some existing =>
    rw [hg] at h
    dsimp only at h ⊢
    by_cases hr : existing.state.status = ServerStatus.running
    · rw [if_pos hr] at h
      simp at h
    · rw [if_neg hr] at h ⊢
      have hinv2 : ∀ p ∈ (ServerManager.stopInternal s config.name).servers,
          p.2.state.name = p.1 :=
        fun p hp => hinv p (stopInternal_servers_subset s config.name p hp)
      exact startFresh_connect_failure _ config conn msg hinv2 h

/-- Witness for `start_connect_failure_cleanup`: a fresh manager whose
`connect` fails with message `"boom"`. -/
theorem start_connect_failure_witness :
    ((∀ p ∈ ({} : MgrState).servers, p.2.state.name = p.1) ∧
      (ServerManager.start {} sampleConfig (ConnectResult.failure "boom")).2
        = StartOutcome.errConnect "boom") ∧
    (jsGet (ServerManager.start {} sampleConfig
          (ConnectResult.failure "boom")).1.servers sampleConfig.name = none ∧
      (∀ st ∈ ServerManager.list (ServerManager.start {} sampleConfig
          (ConnectResult.failure "boom")).1, st.name ≠ sampleConfig.name) ∧
      (ServerManager.start {} sampleConfig
          (ConnectResult.failure "boom")).1.events.getLast?
        = some (sampleConfig.name,
            { name := sampleConfig.name, status := ServerStatus.error
              error := some "boom" }) ∧
      (∀ conn2, (ServerManager.start (ServerManager.start {} sampleConfig
          (ConnectResult.failure "boom")).1 sampleConfig conn2).2
        ≠ StartOutcome.errAlreadyRunning)) :=
  ⟨⟨by simp, rfl⟩,
    start_connect_failure_cleanup {} sampleConfig (ConnectResult.failure "boom")
      "boom" (by simp) rfl⟩

/-- C10: `startAll` with `{name: n, autoStart: false}` on a manager where
`n` is already registered - running included - does not fail: it
unconditionally replaces the map entry with a fresh `stopped` slot and a
fresh client, so `get(n)` afterwards reports `stopped`, `getClient(n)`
returns `undefined`, the results map records the `stopped` state, and no
`disconnect` is ever issued to the previously running client. -/
theorem startAll_autostart_false_replaces (s : MgrState) (config : ServerConfig)
    (conn : ConnectResult) (m : ManagedServer)
    (hm : jsGet s.servers config.name = some m)
    (hauto : config.autoStart = some false) :
    ServerManager.get (ServerManager.startAll s [(config, conn)]).1 config.name
        = some { name := config.name, status := ServerStatus.stopped } ∧
    ServerManager.getClient (ServerManager.startAll s [(config, conn)]).1
        config.name = none ∧
    (ServerManager.startAll s [(config, conn)]).1.disconnects = s.disconnects ∧
    (ServerManager.startAll s [(config, conn)]).2
      = [(config.name,
          { name := config.name, status := ServerStatus.stopped })] := by
  have hget : jsGet (ServerManager.startAll s [(config, conn)]).1.servers
      config.name = some
        { config := config, clientId := s.nextClient
          state := { name := config.name, status := ServerStatus.stopped } } := by
    simp only [ServerManager.startAll, ServerManager.startAllAux, hauto, if_pos]
    exact jsGet_jsSet_self _ _ _
  refine ⟨?_, ?_, ?_, ?_⟩
  · unfold ServerManager.get
    rw [hget]
    rfl
  · unfold ServerManager.getClient
    rw [hget]
    simp
  · simp only [ServerManager.startAll, ServerManager.startAllAux, hauto, if_pos]
  · simp only [ServerManager.startAll, ServerManager.startAllAux, hauto, if_pos]
    simp [jsSet]

/-- Witness for `startAll_autostart_false_replaces`: the running manager
`runningMgrState` re-registered with `autoStart: false`. -/
theorem startAll_autostart_false_witness :
    (jsGet runningMgrState.servers sampleConfigOff.name
        = some { config := sampleConfig, clientId := 0
                 state := { name := "srv", status := ServerStatus.running
                            startedAt := some 0, toolCount := some 0 } } ∧
      sampleConfigOff.autoStart = some false) ∧
    (ServerManager.get (ServerManager.startAll runningMgrState
          [(sampleConfigOff, ConnectResult.failure "unused")]).1 sampleConfigOff.name
        = some { name := sampleConfigOff.name, status := ServerStatus.stopped } ∧
      ServerManager.getClient (ServerManager.startAll runningMgrState
          [(sampleConfigOff, ConnectResult.failure "unused")]).1 sampleConfigOff.name
        = none ∧
      (ServerManager.startAll runningMgrState
          [(sampleConfigOff, ConnectResult.failure "unused")]).1.disconnects
        = runningMgrState.disconnects ∧
      (ServerManager.startAll runningMgrState
          [(sampleConfigOff, ConnectResult.failure "unused")]).2
        = [(sampleConfigOff.name,
            { name := sampleConfigOff.name, status := ServerStatus.stopped })]) :=
  ⟨⟨rfl, rfl⟩,
    startAll_autostart_false_replaces runningMgrState sampleConfigOff
      (ConnectResult.failure "unused")
      { config := sampleConfig, clientId := 0
        state := { name := "srv", status := ServerStatus.running
                   startedAt := some 0, toolCount := some 0 } }
      rfl rfl⟩

end MCPSpec
